import Mathlib

/-!
Verification of the `Perceptron` class from `LogicGates.ipynb`.

The source is a single Python class holding a weight vector (`np.zeros(input_size)`),
a scalar bias (`0`) and a learning rate (default `0.1`).  Its methods are

  * `activation_function(prediction)`: `1 if prediction >= 0 else 0`;
  * `loss_function(expected_output, prediction)`: `expected_output - prediction`;
  * `predict(x)`: `activation_function(np.dot(x, self.weights) + self.bias)`;
  * `train(input_vectors, outputs, epochs)`: for each epoch, for each
    `(input_vector, output)` in `zip(input_vectors, outputs)`, compute
    `prediction = self.predict(input_vector)`, `error = self.loss_function(output, prediction)`,
    then `self.weights += self.learning_rate * error * input_vector` and
    `self.bias += self.learning_rate * error`.

Real numbers are embedded as `ℚ`; numpy's `ValueError` on a 1-d dot product of
mismatched lengths is embedded by the checked variants `predictE` / `trainE`,
whose error value carries the object state at the moment the exception
propagates (Python mutates `self` in place, so the state reached before the
raise is observable on the object afterwards).
-/

/-- The instance attributes of the Python `Perceptron` object. -/
structure Perceptron where
  weights : List ℚ
  bias : ℚ
  learning_rate : ℚ
  deriving DecidableEq, Repr

/-- `np.dot` of two 1-d arrays (meaningful when the lengths agree; the checked
wrappers below enforce numpy's length check). -/
def dot (x w : List ℚ) : ℚ :=
  (List.zipWith (fun a b => a * b) x w).sum

/-- `Perceptron.activation_function`: the Heaviside step function from the source,
`1 if prediction >= 0 else 0`. -/
def activation_function (prediction : ℚ) : ℚ :=
  if prediction ≥ 0 then 1 else 0

/-- `Perceptron.loss_function`: `expected_output - prediction`. -/
def loss_function (expected_output prediction : ℚ) : ℚ :=
  expected_output - prediction

/-- `Perceptron.predict`: `activation_function(np.dot(x, self.weights) + self.bias)`. -/
def Perceptron.predict (p : Perceptron) (x : List ℚ) : ℚ :=
  activation_function (dot x p.weights + p.bias)

/-- `Perceptron.predict` with numpy's length check: `np.dot` raises `ValueError`
when its 1-d operands have different lengths, and `predict` mutates nothing. -/
def Perceptron.predictE (p : Perceptron) (x : List ℚ) : Option ℚ :=
  if x.length = p.weights.length then some (p.predict x) else none

/-- The body of the inner loop of `Perceptron.train` for one training example:
predict, compute the error, and apply the in-place updates
`self.weights += self.learning_rate * error * input_vector`,
`self.bias += self.learning_rate * error`. -/
def Perceptron.trainStep (p : Perceptron) (x : List ℚ) (y : ℚ) : Perceptron :=
  let prediction := p.predict x
  let error := loss_function y prediction
  ⟨List.zipWith (fun w xi => w + p.learning_rate * error * xi) p.weights x,
    p.bias + p.learning_rate * error,
    p.learning_rate⟩

/-- One sweep of the inner `for input_vector, output in zip(...)` loop of
`Perceptron.train`, over the already-zipped data. -/
def Perceptron.trainEpoch (p : Perceptron) : List (List ℚ × ℚ) → Perceptron
  | [] => p
  | ex :: rest => (p.trainStep ex.1 ex.2).trainEpoch rest

/-- `Perceptron.train`: `for _ in range(epochs)` around the epoch sweep. -/
def Perceptron.train (p : Perceptron) (input_vectors : List (List ℚ)) (outputs : List ℚ) :
    ℕ → Perceptron
  | 0 => p
  | e + 1 => (p.trainEpoch (input_vectors.zip outputs)).train input_vectors outputs e

/-- `Perceptron.__init__`: `np.zeros(input_size)` for the weights, bias `0`, and
the given learning rate stored unchecked (the source validates neither
`input_size > 0` nor `learning_rate > 0`; `np.zeros` accepts every natural
number including `0`). -/
def Perceptron.init (input_size : ℕ) (learning_rate : ℚ) : Perceptron :=
  ⟨List.replicate input_size 0, 0, learning_rate⟩

/-- One training example with numpy's length check: `predict` inside `train`
raises before any update when the example's input length differs from the
weight vector's length; the error value is the object state at the raise. -/
def Perceptron.trainStepE (p : Perceptron) (x : List ℚ) (y : ℚ) :
    Except Perceptron Perceptron :=
  if x.length = p.weights.length then Except.ok (p.trainStep x y) else Except.error p

/-- One checked epoch sweep: the first failing example aborts the sweep,
keeping the state reached so far (Python's exception propagating out of the
`for` loop of `train`). -/
def Perceptron.trainEpochE (p : Perceptron) : List (List ℚ × ℚ) → Except Perceptron Perceptron
  | [] => Except.ok p
  | ex :: rest =>
    match p.trainStepE ex.1 ex.2 with
    | Except.ok q => q.trainEpochE rest
    | Except.error q => Except.error q

/-- `Perceptron.train` with numpy's length checks. -/
def Perceptron.trainE (p : Perceptron) (input_vectors : List (List ℚ)) (outputs : List ℚ) :
    ℕ → Except Perceptron Perceptron
  | 0 => Except.ok p
  | e + 1 =>
    match p.trainEpochE (input_vectors.zip outputs) with
    | Except.ok q => q.trainE input_vectors outputs e
    | Except.error q => Except.error q

/-- The number of examples one epoch sweep starting at state `p` misclassifies:
examples whose error signal is nonzero at the parameters current when they are
processed (updates are applied online, inside the sweep). -/
def Perceptron.epochMistakes (p : Perceptron) : List (List ℚ × ℚ) → ℕ
  | [] => 0
  | ex :: rest =>
    (if loss_function ex.2 (p.predict ex.1) = 0 then 0 else 1) +
      (p.trainStep ex.1 ex.2).epochMistakes rest

/-- A decision boundary given by an arbitrary weight vector and bias, applied
exactly as `Perceptron.predict` applies the learned one. -/
def predictWith (w : List ℚ) (b : ℚ) (x : List ℚ) : ℚ :=
  activation_function (dot x w + b)

/-- Elementwise `v + c * z`, the shape of the source's broadcasted weight
update `self.weights += self.learning_rate * error * input_vector`. -/
def addScaled (v : List ℚ) (c : ℚ) (z : List ℚ) : List ℚ :=
  List.zipWith (fun a b => a + c * b) v z

/-- The squared Euclidean norm of a vector, as a dot product with itself. -/
def normSq (v : List ℚ) : ℚ :=
  dot v v

/-- The example stream of `e` consecutive epochs over the dataset. -/
def repeatedData (e : ℕ) (data : List (List ℚ × ℚ)) : List (List ℚ × ℚ) :=
  (List.replicate e data).flatten

/-- The epoch sweep of `train`, read off the specification text: iterate the
dataset once in its given order; for each example take the prediction at the
current parameters, set `error = expected_output - prediction`, and
immediately update every weight by `learning_rate * error * input[i]` and the
bias by `learning_rate * error`, so that later examples in the same sweep see
the updated parameters. -/
def sweepSpecModel (p : Perceptron) : List (List ℚ × ℚ) → Perceptron
  | [] => p
  | (input, expected_output) :: rest =>
    let prediction := p.predict input
    let error := expected_output - prediction
    sweepSpecModel
      ⟨List.zipWith (fun wi xi => wi + p.learning_rate * error * xi) p.weights input,
        p.bias + p.learning_rate * error,
        p.learning_rate⟩
      rest

/-- The training loop read off the specification text: for each epoch
`1..epochs` in order, run one sweep over the dataset. -/
def trainSpecModel (p : Perceptron) (dataset : List (List ℚ × ℚ)) : ℕ → Perceptron
  | 0 => p
  | e + 1 => trainSpecModel (sweepSpecModel p dataset) dataset e

/-- The 2-input OR truth table inputs from the notebook (`OR_inputs`). -/
def OR_inputs : List (List ℚ) := [[0, 0], [0, 1], [1, 0], [1, 1]]

/-- The 2-input OR expected outputs (`OR_outputs`). -/
def OR_outputs : List ℚ := [0, 1, 1, 1]

/-- The 2-input AND truth table inputs from the notebook (`AND_inputs`). -/
def AND_inputs : List (List ℚ) := [[0, 0], [0, 1], [1, 0], [1, 1]]

/-- The 2-input AND expected outputs (`AND_outputs`). -/
def AND_outputs : List ℚ := [0, 0, 0, 1]

/-- The 3-input OR truth table inputs from the notebook (`OR_inputs_3`). -/
def OR_inputs_3 : List (List ℚ) :=
  [[0, 0, 0], [0, 0, 1], [0, 1, 0], [0, 1, 1], [1, 0, 0], [1, 0, 1], [1, 1, 0], [1, 1, 1]]

/-- The 3-input OR expected outputs (`OR_outputs_3`). -/
def OR_outputs_3 : List ℚ := [0, 1, 1, 1, 1, 1, 1, 1]

/-- The 3-input AND truth table inputs from the notebook (`AND_inputs_3`). -/
def AND_inputs_3 : List (List ℚ) :=
  [[0, 0, 0], [0, 0, 1], [0, 1, 0], [0, 1, 1], [1, 0, 0], [1, 0, 1], [1, 1, 0], [1, 1, 1]]

/-- The 3-input AND expected outputs (`AND_outputs_3`). -/
def AND_outputs_3 : List ℚ := [0, 0, 0, 0, 0, 0, 0, 1]

/-! ### Basic lemmas about the embedding -/

theorem Perceptron.train_zero (p : Perceptron) (ins : List (List ℚ)) (outs : List ℚ) :
    p.train ins outs 0 = p := rfl

theorem Perceptron.train_succ (p : Perceptron) (ins : List (List ℚ)) (outs : List ℚ) (e : ℕ) :
    p.train ins outs (e + 1) = (p.trainEpoch (ins.zip outs)).train ins outs e := rfl

theorem Perceptron.train_eq_iterate (p : Perceptron) (ins : List (List ℚ)) (outs : List ℚ) :
    ∀ e : ℕ, p.train ins outs e = (fun q : Perceptron => q.trainEpoch (ins.zip outs))^[e] p
  | 0 => rfl
  | e + 1 => by
    rw [Perceptron.train_succ, Perceptron.train_eq_iterate _ ins outs e,
      Function.iterate_succ_apply]

theorem Perceptron.train_fixed {p : Perceptron} {ins : List (List ℚ)} {outs : List ℚ}
    (h : p.trainEpoch (ins.zip outs) = p) : ∀ e : ℕ, p.train ins outs e = p := by
  intro e
  induction e with
  | zero => rfl
  | succ e ih => rw [Perceptron.train_succ, h, ih]

theorem zipWith_left_of_length_le {α β : Type} (l : List α) (l' : List β)
    (h : l.length ≤ l'.length) : List.zipWith (fun a _ => a) l l' = l := by
  induction l generalizing l' with
  | nil => simp
  | cons a as ih =>
    cases l' with
    | nil => simp at h
    | cons b bs =>
      simp only [List.zipWith_cons_cons, List.cons.injEq, true_and]
      exact ih bs (by simpa using h)

theorem Perceptron.trainStep_of_error_zero {p : Perceptron} {x : List ℚ} {y : ℚ}
    (hlen : x.length = p.weights.length) (h : loss_function y (p.predict x) = 0) :
    p.trainStep x y = p := by
  obtain ⟨w, b, lr⟩ := p
  simp only [Perceptron.trainStep, h, mul_zero, zero_mul, add_zero, Perceptron.mk.injEq,
    and_true, true_and]
  exact zipWith_left_of_length_le w x (le_of_eq hlen.symm)

theorem Perceptron.trainStep_weights_length {p : Perceptron} {x : List ℚ} {y : ℚ}
    (h : x.length = p.weights.length) :
    (p.trainStep x y).weights.length = p.weights.length := by
  simp [Perceptron.trainStep, h]

theorem Perceptron.trainStep_learning_rate (p : Perceptron) (x : List ℚ) (y : ℚ) :
    (p.trainStep x y).learning_rate = p.learning_rate := rfl

theorem Perceptron.trainEpoch_weights_length {p : Perceptron} {data : List (List ℚ × ℚ)}
    (h : ∀ ex ∈ data, ex.1.length = p.weights.length) :
    (p.trainEpoch data).weights.length = p.weights.length := by
  induction data generalizing p with
  | nil => rfl
  | cons ex rest ih =>
    have hx : ex.1.length = p.weights.length := h ex (List.mem_cons_self ex rest)
    have hstep := Perceptron.trainStep_weights_length (p := p) (x := ex.1) (y := ex.2) hx
    rw [Perceptron.trainEpoch, ih, hstep]
    intro e he
    rw [hstep]
    exact h e (List.mem_cons_of_mem ex he)

theorem Perceptron.epochMistakes_zero_fix {p : Perceptron} {data : List (List ℚ × ℚ)}
    (hdim : ∀ ex ∈ data, ex.1.length = p.weights.length)
    (h : p.epochMistakes data = 0) : p.trainEpoch data = p := by
  induction data generalizing p with
  | nil => rfl
  | cons ex rest ih =>
    rw [Perceptron.epochMistakes, Nat.add_eq_zero] at h
    have herr : loss_function ex.2 (p.predict ex.1) = 0 := by
      by_contra hne
      simp [hne] at h
    have hx : ex.1.length = p.weights.length := hdim ex (List.mem_cons_self ex rest)
    have hstep : p.trainStep ex.1 ex.2 = p := Perceptron.trainStep_of_error_zero hx herr
    rw [Perceptron.trainEpoch, hstep]
    refine ih ?_ ?_
    · intro e he
      exact hdim e (List.mem_cons_of_mem ex he)
    · have := h.2
      rwa [hstep] at this

/-! ### Claim theorems -/

/-- Claim C1: for every weight vector, bias, and input vector of matching
length, `predict` returns 1 when the raw activation
`y = dot(weights, input) + bias` satisfies `y >= 0` and 0 otherwise.  In this
embedding `predict` is a pure function returning only the label, so it leaves
the weights and bias unchanged by construction. -/
theorem c1_predict_is_step_of_activation (p : Perceptron) (x : List ℚ)
    (h : x.length = p.weights.length) :
    p.predictE x = some (if 0 ≤ dot x p.weights + p.bias then 1 else 0) := by
  simp [Perceptron.predictE, h, Perceptron.predict, activation_function, ge_iff_le]

/-- Witness for C1 at a concrete perceptron and input. -/
theorem c1_predict_is_step_of_activation_witness :
    Perceptron.predictE ⟨[1, 2], 3, 1/10⟩ [1, 1] =
      some (if 0 ≤ dot [1, 1] [1, 2] + 3 then 1 else 0) :=
  c1_predict_is_step_of_activation ⟨[1, 2], 3, 1/10⟩ [1, 1] rfl

/-- Claim C6: training is deterministic.  Two perceptrons whose construction
left identical fields (weights, bias, learning rate), trained on the same
dataset in the same order for the same number of epochs, end in bit-identical
states, and `predict` on equal inputs returns equal outputs.  The embedding
has no source of randomness anywhere, mirroring the source. -/
theorem c6_training_deterministic (p q : Perceptron) (hw : p.weights = q.weights)
    (hb : p.bias = q.bias) (hl : p.learning_rate = q.learning_rate)
    (ins : List (List ℚ)) (outs : List ℚ) (e : ℕ) :
    p.train ins outs e = q.train ins outs e ∧
      ∀ x : List ℚ, (p.train ins outs e).predict x = (q.train ins outs e).predict x := by
  obtain ⟨pw, pb, pl⟩ := p
  obtain ⟨qw, qb, ql⟩ := q
  cases hw
  cases hb
  cases hl
  exact ⟨rfl, fun _ => rfl⟩

/-- Witness for C6: a literal copy of a freshly constructed 2-input unit
trains to the same state on one OR example. -/
theorem c6_training_deterministic_witness :
    (Perceptron.mk [0, 0] 0 (1/10)).train [[1, 0]] [1] 3 =
        (Perceptron.init 2 (1/10)).train [[1, 0]] [1] 3 ∧
      ∀ x : List ℚ,
        ((Perceptron.mk [0, 0] 0 (1/10)).train [[1, 0]] [1] 3).predict x =
          ((Perceptron.init 2 (1/10)).train [[1, 0]] [1] 3).predict x :=
  c6_training_deterministic ⟨[0, 0], 0, 1/10⟩ (Perceptron.init 2 (1/10)) rfl rfl rfl
    [[1, 0]] [1] 3

/-- Claim C10: a freshly constructed perceptron (all-zero weights, zero bias)
returns 1 from `predict` for every input of the correct length: the raw
activation is exactly 0 and the step activation maps 0 to 1. -/
theorem c10_fresh_unit_predicts_one (n : ℕ) (lr : ℚ) (x : List ℚ) (h : x.length = n) :
    (Perceptron.init n lr).predictE x = some 1 := by
  have hdot : ∀ (x : List ℚ) (m : ℕ), dot x (List.replicate m 0) = 0 := by
    intro x
    induction x with
    | nil => intro m; simp [dot]
    | cons a as ih =>
      intro m
      cases m with
      | zero => simp [dot]
      | succ m =>
        simp only [List.replicate_succ, dot, List.zipWith_cons_cons, List.sum_cons, mul_zero]
        rw [zero_add]
        exact ih m
  simp [Perceptron.predictE, Perceptron.init, h, Perceptron.predict, hdot,
    activation_function]

/-- Witness for C10 at a concrete dimension and input. -/
theorem c10_fresh_unit_predicts_one_witness :
    (Perceptron.init 2 (1/10)).predictE [5, 7] = some 1 :=
  c10_fresh_unit_predicts_one 2 (1/10) [5, 7] rfl

/-- Claim C8 fails on the code: `__init__` performs no validation at all.
`np.zeros(0)` succeeds, so `Perceptron(0)` constructs a unit with an empty
weight vector, and a learning rate of `0` is stored without complaint, so
`Perceptron(2, 0.0)` also constructs a unit.  Neither call fails. -/
theorem c8_counterexample :
    Perceptron.init 0 (1/10) = ⟨[], 0, 1/10⟩ ∧ Perceptron.init 2 0 = ⟨[0, 0], 0, 0⟩ :=
  ⟨rfl, rfl⟩

/-- Claim C8 amended: construction never fails and performs no validation of
`input_size` positivity or `learning_rate` positivity; every construction
initializes the weight vector to `input_size` zeros (hence of length
`input_size`), the bias to zero, and stores the learning rate as given. -/
theorem c8_amended_no_validation (n : ℕ) (lr : ℚ) :
    (Perceptron.init n lr).weights = List.replicate n 0 ∧
      (Perceptron.init n lr).weights.length = n ∧
      (Perceptron.init n lr).bias = 0 ∧
      (Perceptron.init n lr).learning_rate = lr :=
  ⟨rfl, by simp [Perceptron.init], rfl, rfl⟩

/-- Claim C9 fails on the code: `train` accepts an expected output outside
{0,1} without any check and silently feeds it to `loss_function`.  Training a
fresh 1-input unit on the single example `([1], 5)` raises nothing and applies
the nonsensical error signal `5 - 1 = 4`, producing weights `[2/5]` and bias
`2/5`. -/
theorem c9_counterexample :
    (Perceptron.init 1 (1/10)).trainE [[1]] [5] 1 = Except.ok ⟨[2/5], 2/5, 1/10⟩ := by
  norm_num [Perceptron.trainE, Perceptron.trainEpochE, Perceptron.trainStepE,
    Perceptron.trainStep, Perceptron.predict, Perceptron.init, dot,
    activation_function, loss_function]

/-- Claim C9 amended: `train` performs no label validation.  For any expected
output `y` whatsoever (in particular outside {0,1}), a training example of
matching length succeeds and silently applies the update with error signal
`y - prediction`: the bias moves by `learning_rate * (y - prediction)`. -/
theorem c9_amended_no_label_validation (p : Perceptron) (x : List ℚ) (y : ℚ)
    (h : x.length = p.weights.length) :
    p.trainE [x] [y] 1 = Except.ok (p.trainStep x y) ∧
      (p.trainStep x y).bias = p.bias + p.learning_rate * (y - p.predict x) := by
  constructor
  · simp [Perceptron.trainE, Perceptron.trainEpochE, Perceptron.trainStepE, h]
  · simp [Perceptron.trainStep, loss_function]

/-- Witness for the amended C9 at the counterexample's input. -/
theorem c9_amended_no_label_validation_witness :
    (Perceptron.init 1 (1/10)).trainE [[1]] [5] 1 =
        Except.ok ((Perceptron.init 1 (1/10)).trainStep [1] 5) ∧
      ((Perceptron.init 1 (1/10)).trainStep [1] 5).bias =
        (Perceptron.init 1 (1/10)).bias +
          (Perceptron.init 1 (1/10)).learning_rate * (5 - (Perceptron.init 1 (1/10)).predict [1]) :=
  c9_amended_no_label_validation (Perceptron.init 1 (1/10)) [1] 5 rfl

/-- Helper for C7: an epoch sweep whose examples match the weight length up to
the first mismatched example fails there, carrying the state accumulated by
the earlier, already-applied updates. -/
theorem Perceptron.trainEpochE_error_at_first_mismatch {p : Perceptron}
    {good : List (List ℚ × ℚ)} {bad : List ℚ × ℚ} {rest : List (List ℚ × ℚ)}
    (hgood : ∀ ex ∈ good, ex.1.length = p.weights.length)
    (hbad : bad.1.length ≠ p.weights.length) :
    p.trainEpochE (good ++ bad :: rest) = Except.error (p.trainEpoch good) := by
  induction good generalizing p with
  | nil =>
    simp [Perceptron.trainEpochE, Perceptron.trainStepE, hbad, Perceptron.trainEpoch]
  | cons g gs ih =>
    have hg : g.1.length = p.weights.length := hgood g (List.mem_cons_self g gs)
    have hlen := Perceptron.trainStep_weights_length (p := p) (x := g.1) (y := g.2) hg
    rw [List.cons_append, Perceptron.trainEpochE, Perceptron.trainStepE, if_pos hg,
      Perceptron.trainEpoch]
    exact ih (fun ex hex => by rw [hlen]; exact hgood ex (List.mem_cons_of_mem g hex))
      (by rw [hlen]; exact hbad)

/-- Claim C7 fails on the code for `train`: when the mismatched example is not
the first one, the updates of the earlier examples have already been applied
to the object when the exception propagates, so the weights and bias are not
left unchanged.  Training a fresh 1-input unit on `([1], 0)` followed by the
mismatched `([1, 2], 0)` fails with the dimension error, but the state at the
failure is `⟨[-1/10], -1/10⟩`, not the initial `⟨[0], 0⟩`. -/
theorem c7_counterexample :
    (Perceptron.init 1 (1/10)).trainE [[1], [1, 2]] [0, 0] 1 =
        Except.error ⟨[-1/10], -1/10, 1/10⟩ ∧
      (⟨[-1/10], -1/10, 1/10⟩ : Perceptron) ≠ Perceptron.init 1 (1/10) := by
  constructor
  · norm_num [Perceptron.trainE, Perceptron.trainEpochE, Perceptron.trainStepE,
      Perceptron.trainStep, Perceptron.predict, Perceptron.init, dot,
      activation_function, loss_function]
  · intro h
    rw [Perceptron.mk.injEq] at h
    norm_num [Perceptron.init] at h

/-- Claim C7 amended: a `predict` call with a mismatched input fails with the
dimension error and, being read-only, mutates nothing; a `train` call fails at
the first mismatched example, and the state at the failure carries exactly the
updates of the examples processed before the mismatch — so the weights and
bias are unchanged precisely when the mismatched example comes first. -/
theorem c7_amended_mismatch_fails (p : Perceptron) (x : List ℚ)
    (good : List (List ℚ × ℚ)) (bad : List ℚ × ℚ) (rest : List (List ℚ × ℚ))
    (ins : List (List ℚ)) (outs : List ℚ) (e : ℕ)
    (hx : x.length ≠ p.weights.length)
    (hgood : ∀ ex ∈ good, ex.1.length = p.weights.length)
    (hbad : bad.1.length ≠ p.weights.length)
    (hzip : ins.zip outs = good ++ bad :: rest) :
    p.predictE x = none ∧
      p.trainE ins outs (e + 1) = Except.error (p.trainEpoch good) ∧
      (good = [] → p.trainE ins outs (e + 1) = Except.error p) := by
  have hepoch : p.trainEpochE (ins.zip outs) = Except.error (p.trainEpoch good) := by
    rw [hzip]
    exact Perceptron.trainEpochE_error_at_first_mismatch hgood hbad
  have htrain : p.trainE ins outs (e + 1) = Except.error (p.trainEpoch good) := by
    rw [Perceptron.trainE, hepoch]
  refine ⟨by simp [Perceptron.predictE, hx], htrain, ?_⟩
  intro hnil
  rw [htrain, hnil]
  rfl

/-- Witness for the amended C7: a valid example then a mismatched one; the
failure state is the one-step-trained perceptron. -/
theorem c7_amended_mismatch_fails_witness :
    (Perceptron.init 1 (1/10)).predictE [1, 2] = none ∧
      (Perceptron.init 1 (1/10)).trainE [[1], [1, 2]] [0, 0] 1 =
        Except.error ((Perceptron.init 1 (1/10)).trainEpoch [([1], 0)]) ∧
      ([(([1] : List ℚ), (0 : ℚ))] = [] →
        (Perceptron.init 1 (1/10)).trainE [[1], [1, 2]] [0, 0] 1 =
          Except.error (Perceptron.init 1 (1/10))) :=
  c7_amended_mismatch_fails (Perceptron.init 1 (1/10)) [1, 2] [([1], 0)] ([1, 2], 0) []
    [[1], [1, 2]] [0, 0] 0 (by simp [Perceptron.init])
    (by simp [Perceptron.init]) (by simp [Perceptron.init]) rfl

/-- Claim C4: if one full epoch from state `p` produces zero misclassifications
(every per-example error is 0 at the parameters reached during the sweep),
then that epoch — and hence every further epoch — leaves the weights and bias
exactly unchanged, and the per-epoch misclassification count stays at 0 for
every number of further epochs. -/
theorem c4_zero_error_epoch_is_fixpoint (p : Perceptron) (ins : List (List ℚ)) (outs : List ℚ)
    (hdim : ∀ ex ∈ ins.zip outs, ex.1.length = p.weights.length)
    (h0 : p.epochMistakes (ins.zip outs) = 0) :
    p.trainEpoch (ins.zip outs) = p ∧
      (∀ k : ℕ, p.train ins outs k = p) ∧
      ∀ k : ℕ, (p.train ins outs k).epochMistakes (ins.zip outs) = 0 := by
  have hfix := Perceptron.epochMistakes_zero_fix hdim h0
  refine ⟨hfix, Perceptron.train_fixed hfix, fun k => ?_⟩
  rw [Perceptron.train_fixed hfix k]
  exact h0

/-- Witness for C4: a 1-input unit with weight 1 classifies `([1], 1)` with
zero error, so training any further leaves it untouched. -/
theorem c4_zero_error_epoch_is_fixpoint_witness :
    Perceptron.trainEpoch ⟨[1], 0, 1/10⟩ ([[1]].zip [1]) = ⟨[1], 0, 1/10⟩ ∧
      (∀ k : ℕ, Perceptron.train ⟨[1], 0, 1/10⟩ [[1]] [1] k = ⟨[1], 0, 1/10⟩) ∧
      ∀ k : ℕ,
        (Perceptron.train ⟨[1], 0, 1/10⟩ [[1]] [1] k).epochMistakes ([[1]].zip [1]) = 0 :=
  c4_zero_error_epoch_is_fixpoint ⟨[1], 0, 1/10⟩ [[1]] [1] (by simp)
    (by norm_num [Perceptron.epochMistakes, Perceptron.predict, dot,
      activation_function, loss_function])

/-- Helper for C2: the sweep read off the spec text coincides with the
embedded inner loop of the source. -/
theorem sweepSpecModel_eq_trainEpoch (p : Perceptron) (data : List (List ℚ × ℚ)) :
    sweepSpecModel p data = p.trainEpoch data := by
  induction data generalizing p with
  | nil => rfl
  | cons ex rest ih =>
    obtain ⟨x, y⟩ := ex
    rw [sweepSpecModel, Perceptron.trainEpoch]
    exact ih _

/-- Helper for C2: the training loop read off the spec text coincides with the
embedded `train`. -/
theorem trainSpecModel_eq_train (p : Perceptron) (ins : List (List ℚ)) (outs : List ℚ) :
    ∀ e : ℕ, trainSpecModel p (ins.zip outs) e = p.train ins outs e
  | 0 => rfl
  | e + 1 => by
    rw [trainSpecModel, Perceptron.train_succ, sweepSpecModel_eq_trainEpoch,
      trainSpecModel_eq_train _ ins outs e]

/-- The step activation only ever outputs 0 or 1. -/
theorem Perceptron.predict_mem_pair (p : Perceptron) (x : List ℚ) :
    p.predict x = 0 ∨ p.predict x = 1 := by
  unfold Perceptron.predict activation_function
  by_cases h : dot x p.weights + p.bias ≥ 0 <;> simp [h]

/-- Claim C2: for every dataset with labels in {0,1} and every positive epoch
count, `train` is exactly the loop the spec describes — `epochs` sweeps over
the dataset in its given order, each example predicted at the current
parameters, `error = expected_output - prediction`, with the weight and bias
updates applied immediately so later examples in the same sweep see them
(`trainSpecModel` is written as that loop and applies the update before
recursing) — and every per-example error signal lies in {-1, 0, 1}. -/
theorem c2_train_is_online_update_loop (p : Perceptron) (ins : List (List ℚ)) (outs : List ℚ)
    (e : ℕ) (he : 0 < e) (hlab : ∀ y ∈ outs, y = 0 ∨ y = 1) :
    p.train ins outs e = trainSpecModel p (ins.zip outs) e ∧
      ∀ (q : Perceptron) (x : List ℚ) (y : ℚ), (x, y) ∈ ins.zip outs →
        loss_function y (q.predict x) = -1 ∨ loss_function y (q.predict x) = 0 ∨
          loss_function y (q.predict x) = 1 := by
  refine ⟨(trainSpecModel_eq_train p ins outs e).symm, ?_⟩
  intro q x y hmem
  have hy : y = 0 ∨ y = 1 := hlab y (List.of_mem_zip hmem).2
  have hq := Perceptron.predict_mem_pair q x
  rcases hy with hy | hy <;> rcases hq with hq | hq <;>
    rw [loss_function, hy, hq] <;> norm_num

/-- Witness for C2 at a concrete unit, dataset and epoch count. -/
theorem c2_train_is_online_update_loop_witness :
    Perceptron.train (Perceptron.init 1 (1/10)) [[1]] [1] 1 =
        trainSpecModel (Perceptron.init 1 (1/10)) (([[1]] : List (List ℚ)).zip [1]) 1 ∧
      ∀ (q : Perceptron) (x : List ℚ) (y : ℚ), (x, y) ∈ ([[1]] : List (List ℚ)).zip [1] →
        loss_function y (q.predict x) = -1 ∨ loss_function y (q.predict x) = 0 ∨
          loss_function y (q.predict x) = 1 :=
  c2_train_is_online_update_loop (Perceptron.init 1 (1/10)) [[1]] [1] 1 one_pos
    (by intro y hy; simp only [List.mem_singleton] at hy; right; exact hy)

/-- Helper for C3: once some epoch count reaches a state whose epoch sweep is a
fixpoint, every larger epoch count reaches that same state. -/
theorem train_eventually_fixed {p s : Perceptron} {ins : List (List ℚ)} {outs : List ℚ}
    {m : ℕ} (hm : p.train ins outs m = s)
    (hfix : s.trainEpoch (ins.zip outs) = s) :
    ∀ N : ℕ, m ≤ N → p.train ins outs N = s := by
  intro N hN
  obtain ⟨k, rfl⟩ : ∃ k, N = k + m := ⟨N - m, by omega⟩
  rw [Perceptron.train_eq_iterate, Function.iterate_add_apply,
    ← Perceptron.train_eq_iterate, ← Perceptron.train_eq_iterate, hm,
    Perceptron.train_eq_iterate]
  exact @Function.iterate_fixed Perceptron (fun q => q.trainEpoch (ins.zip outs)) s hfix k
/-- The exact state of the trained OR2 perceptron for any epoch count of
at least 10 (its training trajectory reaches a fixpoint before epoch 10). -/
theorem or2_trained_state (N : ℕ) (hN : 10 ≤ N) :
    (Perceptron.init 2 (1/10)).train OR_inputs OR_outputs N = ⟨[1/10, 1/10], -1/10, 1/10⟩ := by
  have h1 : Perceptron.trainEpoch ⟨[0, 0], 0, 1/10⟩ (OR_inputs.zip OR_outputs) =
      ⟨[0, 1/10], 0, 1/10⟩ := by
    norm_num [OR_inputs, OR_outputs, Perceptron.trainEpoch, Perceptron.trainStep,
      Perceptron.predict, dot, activation_function, loss_function]
  have h2 : Perceptron.trainEpoch ⟨[0, 1/10], 0, 1/10⟩ (OR_inputs.zip OR_outputs) =
      ⟨[1/10, 1/10], 0, 1/10⟩ := by
    norm_num [OR_inputs, OR_outputs, Perceptron.trainEpoch, Perceptron.trainStep,
      Perceptron.predict, dot, activation_function, loss_function]
  have h3 : Perceptron.trainEpoch ⟨[1/10, 1/10], 0, 1/10⟩ (OR_inputs.zip OR_outputs) =
      ⟨[1/10, 1/10], -1/10, 1/10⟩ := by
    norm_num [OR_inputs, OR_outputs, Perceptron.trainEpoch, Perceptron.trainStep,
      Perceptron.predict, dot, activation_function, loss_function]
  have hfix : Perceptron.trainEpoch ⟨[1/10, 1/10], -1/10, 1/10⟩ (OR_inputs.zip OR_outputs) =
      ⟨[1/10, 1/10], -1/10, 1/10⟩ := by
    norm_num [OR_inputs, OR_outputs, Perceptron.trainEpoch, Perceptron.trainStep,
      Perceptron.predict, dot, activation_function, loss_function]
  have hm : (Perceptron.init 2 (1/10)).train OR_inputs OR_outputs (0 + 1 + 1 + 1) =
      ⟨[1/10, 1/10], -1/10, 1/10⟩ := by
    rw [show Perceptron.init 2 (1/10) = (⟨[0, 0], 0, 1/10⟩ : Perceptron) from rfl,
      Perceptron.train_succ, h1, Perceptron.train_succ, h2, Perceptron.train_succ, h3, Perceptron.train_zero]
  exact train_eventually_fixed hm hfix N (by omega)

/-- The exact state of the trained AND2 perceptron for any epoch count of
at least 10 (its training trajectory reaches a fixpoint before epoch 10). -/
theorem and2_trained_state (N : ℕ) (hN : 10 ≤ N) :
    (Perceptron.init 2 (1/10)).train AND_inputs AND_outputs N = ⟨[1/5, 1/10], -3/10, 1/10⟩ := by
  have h1 : Perceptron.trainEpoch ⟨[0, 0], 0, 1/10⟩ (AND_inputs.zip AND_outputs) =
      ⟨[1/10, 1/10], 0, 1/10⟩ := by
    norm_num [AND_inputs, AND_outputs, Perceptron.trainEpoch, Perceptron.trainStep,
      Perceptron.predict, dot, activation_function, loss_function]
  have h2 : Perceptron.trainEpoch ⟨[1/10, 1/10], 0, 1/10⟩ (AND_inputs.zip AND_outputs) =
      ⟨[1/5, 1/10], -1/10, 1/10⟩ := by
    norm_num [AND_inputs, AND_outputs, Perceptron.trainEpoch, Perceptron.trainStep,
      Perceptron.predict, dot, activation_function, loss_function]
  have h3 : Perceptron.trainEpoch ⟨[1/5, 1/10], -1/10, 1/10⟩ (AND_inputs.zip AND_outputs) =
      ⟨[1/5, 1/10], -1/5, 1/10⟩ := by
    norm_num [AND_inputs, AND_outputs, Perceptron.trainEpoch, Perceptron.trainStep,
      Perceptron.predict, dot, activation_function, loss_function]
  have h4 : Perceptron.trainEpoch ⟨[1/5, 1/10], -1/5, 1/10⟩ (AND_inputs.zip AND_outputs) =
      ⟨[1/5, 1/5], -1/5, 1/10⟩ := by
    norm_num [AND_inputs, AND_outputs, Perceptron.trainEpoch, Perceptron.trainStep,
      Perceptron.predict, dot, activation_function, loss_function]
  have h5 : Perceptron.trainEpoch ⟨[1/5, 1/5], -1/5, 1/10⟩ (AND_inputs.zip AND_outputs) =
      ⟨[1/5, 1/10], -3/10, 1/10⟩ := by
    norm_num [AND_inputs, AND_outputs, Perceptron.trainEpoch, Perceptron.trainStep,
      Perceptron.predict, dot, activation_function, loss_function]
  have hfix : Perceptron.trainEpoch ⟨[1/5, 1/10], -3/10, 1/10⟩ (AND_inputs.zip AND_outputs) =
      ⟨[1/5, 1/10], -3/10, 1/10⟩ := by
    norm_num [AND_inputs, AND_outputs, Perceptron.trainEpoch, Perceptron.trainStep,
      Perceptron.predict, dot, activation_function, loss_function]
  have hm : (Perceptron.init 2 (1/10)).train AND_inputs AND_outputs (0 + 1 + 1 + 1 + 1 + 1) =
      ⟨[1/5, 1/10], -3/10, 1/10⟩ := by
    rw [show Perceptron.init 2 (1/10) = (⟨[0, 0], 0, 1/10⟩ : Perceptron) from rfl,
      Perceptron.train_succ, h1, Perceptron.train_succ, h2, Perceptron.train_succ, h3, Perceptron.train_succ, h4, Perceptron.train_succ, h5, Perceptron.train_zero]
  exact train_eventually_fixed hm hfix N (by omega)

/-- The exact state of the trained OR3 perceptron for any epoch count of
at least 10 (its training trajectory reaches a fixpoint before epoch 10). -/
theorem or3_trained_state (N : ℕ) (hN : 10 ≤ N) :
    (Perceptron.init 3 (1/10)).train OR_inputs_3 OR_outputs_3 N = ⟨[1/10, 1/10, 1/10], -1/10, 1/10⟩ := by
  have h1 : Perceptron.trainEpoch ⟨[0, 0, 0], 0, 1/10⟩ (OR_inputs_3.zip OR_outputs_3) =
      ⟨[0, 0, 1/10], 0, 1/10⟩ := by
    norm_num [OR_inputs_3, OR_outputs_3, Perceptron.trainEpoch, Perceptron.trainStep,
      Perceptron.predict, dot, activation_function, loss_function]
  have h2 : Perceptron.trainEpoch ⟨[0, 0, 1/10], 0, 1/10⟩ (OR_inputs_3.zip OR_outputs_3) =
      ⟨[0, 1/10, 1/10], 0, 1/10⟩ := by
    norm_num [OR_inputs_3, OR_outputs_3, Perceptron.trainEpoch, Perceptron.trainStep,
      Perceptron.predict, dot, activation_function, loss_function]
  have h3 : Perceptron.trainEpoch ⟨[0, 1/10, 1/10], 0, 1/10⟩ (OR_inputs_3.zip OR_outputs_3) =
      ⟨[1/10, 1/10, 1/10], 0, 1/10⟩ := by
    norm_num [OR_inputs_3, OR_outputs_3, Perceptron.trainEpoch, Perceptron.trainStep,
      Perceptron.predict, dot, activation_function, loss_function]
  have h4 : Perceptron.trainEpoch ⟨[1/10, 1/10, 1/10], 0, 1/10⟩ (OR_inputs_3.zip OR_outputs_3) =
      ⟨[1/10, 1/10, 1/10], -1/10, 1/10⟩ := by
    norm_num [OR_inputs_3, OR_outputs_3, Perceptron.trainEpoch, Perceptron.trainStep,
      Perceptron.predict, dot, activation_function, loss_function]
  have hfix : Perceptron.trainEpoch ⟨[1/10, 1/10, 1/10], -1/10, 1/10⟩ (OR_inputs_3.zip OR_outputs_3) =
      ⟨[1/10, 1/10, 1/10], -1/10, 1/10⟩ := by
    norm_num [OR_inputs_3, OR_outputs_3, Perceptron.trainEpoch, Perceptron.trainStep,
      Perceptron.predict, dot, activation_function, loss_function]
  have hm : (Perceptron.init 3 (1/10)).train OR_inputs_3 OR_outputs_3 (0 + 1 + 1 + 1 + 1) =
      ⟨[1/10, 1/10, 1/10], -1/10, 1/10⟩ := by
    rw [show Perceptron.init 3 (1/10) = (⟨[0, 0, 0], 0, 1/10⟩ : Perceptron) from rfl,
      Perceptron.train_succ, h1, Perceptron.train_succ, h2, Perceptron.train_succ, h3, Perceptron.train_succ, h4, Perceptron.train_zero]
  exact train_eventually_fixed hm hfix N (by omega)

/-- The exact state of the trained AND3 perceptron for any epoch count of
at least 10 (its training trajectory reaches a fixpoint before epoch 10). -/
theorem and3_trained_state (N : ℕ) (hN : 10 ≤ N) :
    (Perceptron.init 3 (1/10)).train AND_inputs_3 AND_outputs_3 N = ⟨[1/5, 1/10, 1/10], -2/5, 1/10⟩ := by
  have h1 : Perceptron.trainEpoch ⟨[0, 0, 0], 0, 1/10⟩ (AND_inputs_3.zip AND_outputs_3) =
      ⟨[1/10, 1/10, 1/10], 0, 1/10⟩ := by
    norm_num [AND_inputs_3, AND_outputs_3, Perceptron.trainEpoch, Perceptron.trainStep,
      Perceptron.predict, dot, activation_function, loss_function]
  have h2 : Perceptron.trainEpoch ⟨[1/10, 1/10, 1/10], 0, 1/10⟩ (AND_inputs_3.zip AND_outputs_3) =
      ⟨[1/10, 1/10, 1/10], -1/5, 1/10⟩ := by
    norm_num [AND_inputs_3, AND_outputs_3, Perceptron.trainEpoch, Perceptron.trainStep,
      Perceptron.predict, dot, activation_function, loss_function]
  have h3 : Perceptron.trainEpoch ⟨[1/10, 1/10, 1/10], -1/5, 1/10⟩ (AND_inputs_3.zip AND_outputs_3) =
      ⟨[1/5, 1/10, 1/10], -1/5, 1/10⟩ := by
    norm_num [AND_inputs_3, AND_outputs_3, Perceptron.trainEpoch, Perceptron.trainStep,
      Perceptron.predict, dot, activation_function, loss_function]
  have h4 : Perceptron.trainEpoch ⟨[1/5, 1/10, 1/10], -1/5, 1/10⟩ (AND_inputs_3.zip AND_outputs_3) =
      ⟨[3/10, 1/10, 1/10], -1/5, 1/10⟩ := by
    norm_num [AND_inputs_3, AND_outputs_3, Perceptron.trainEpoch, Perceptron.trainStep,
      Perceptron.predict, dot, activation_function, loss_function]
  have h5 : Perceptron.trainEpoch ⟨[3/10, 1/10, 1/10], -1/5, 1/10⟩ (AND_inputs_3.zip AND_outputs_3) =
      ⟨[3/10, 1/10, 1/10], -3/10, 1/10⟩ := by
    norm_num [AND_inputs_3, AND_outputs_3, Perceptron.trainEpoch, Perceptron.trainStep,
      Perceptron.predict, dot, activation_function, loss_function]
  have h6 : Perceptron.trainEpoch ⟨[3/10, 1/10, 1/10], -3/10, 1/10⟩ (AND_inputs_3.zip AND_outputs_3) =
      ⟨[1/5, 1/10, 1/10], -2/5, 1/10⟩ := by
    norm_num [AND_inputs_3, AND_outputs_3, Perceptron.trainEpoch, Perceptron.trainStep,
      Perceptron.predict, dot, activation_function, loss_function]
  have hfix : Perceptron.trainEpoch ⟨[1/5, 1/10, 1/10], -2/5, 1/10⟩ (AND_inputs_3.zip AND_outputs_3) =
      ⟨[1/5, 1/10, 1/10], -2/5, 1/10⟩ := by
    norm_num [AND_inputs_3, AND_outputs_3, Perceptron.trainEpoch, Perceptron.trainStep,
      Perceptron.predict, dot, activation_function, loss_function]
  have hm : (Perceptron.init 3 (1/10)).train AND_inputs_3 AND_outputs_3 (0 + 1 + 1 + 1 + 1 + 1 + 1) =
      ⟨[1/5, 1/10, 1/10], -2/5, 1/10⟩ := by
    rw [show Perceptron.init 3 (1/10) = (⟨[0, 0, 0], 0, 1/10⟩ : Perceptron) from rfl,
      Perceptron.train_succ, h1, Perceptron.train_succ, h2, Perceptron.train_succ, h3, Perceptron.train_succ, h4, Perceptron.train_succ, h5, Perceptron.train_succ, h6, Perceptron.train_zero]
  exact train_eventually_fixed hm hfix N (by omega)


/-- Claim C3: training from zero weights and zero bias at learning rate 0.1
for any number of epochs N ≥ 10 makes `predict` reproduce the full truth
table of each gate: 2-input OR gives {0,1,1,1}, 2-input AND gives {0,0,0,1},
3-input OR maps only (0,0,0) to 0, and 3-input AND maps only (1,1,1) to 1. -/
theorem c3_trained_gates_reproduce_truth_tables (N : ℕ) (hN : 10 ≤ N) :
    (∀ ex ∈ OR_inputs.zip OR_outputs,
        ((Perceptron.init 2 (1/10)).train OR_inputs OR_outputs N).predict ex.1 = ex.2) ∧
      (∀ ex ∈ AND_inputs.zip AND_outputs,
        ((Perceptron.init 2 (1/10)).train AND_inputs AND_outputs N).predict ex.1 = ex.2) ∧
      (∀ ex ∈ OR_inputs_3.zip OR_outputs_3,
        ((Perceptron.init 3 (1/10)).train OR_inputs_3 OR_outputs_3 N).predict ex.1 = ex.2) ∧
      ∀ ex ∈ AND_inputs_3.zip AND_outputs_3,
        ((Perceptron.init 3 (1/10)).train AND_inputs_3 AND_outputs_3 N).predict ex.1 = ex.2 := by
  rw [or2_trained_state N hN, and2_trained_state N hN, or3_trained_state N hN,
    and3_trained_state N hN]
  refine ⟨?_, ?_, ?_, ?_⟩ <;>
    norm_num [OR_inputs, OR_outputs, AND_inputs, AND_outputs, OR_inputs_3, OR_outputs_3,
      AND_inputs_3, AND_outputs_3, Perceptron.predict, dot, activation_function]

/-- Witness for C3 at exactly 10 epochs. -/
theorem c3_trained_gates_reproduce_truth_tables_witness :
    (∀ ex ∈ OR_inputs.zip OR_outputs,
        ((Perceptron.init 2 (1/10)).train OR_inputs OR_outputs 10).predict ex.1 = ex.2) ∧
      (∀ ex ∈ AND_inputs.zip AND_outputs,
        ((Perceptron.init 2 (1/10)).train AND_inputs AND_outputs 10).predict ex.1 = ex.2) ∧
      (∀ ex ∈ OR_inputs_3.zip OR_outputs_3,
        ((Perceptron.init 3 (1/10)).train OR_inputs_3 OR_outputs_3 10).predict ex.1 = ex.2) ∧
      ∀ ex ∈ AND_inputs_3.zip AND_outputs_3,
        ((Perceptron.init 3 (1/10)).train AND_inputs_3 AND_outputs_3 10).predict ex.1 = ex.2 :=
  c3_trained_gates_reproduce_truth_tables 10 (le_refl 10)

/-! ### Vector algebra for the convergence argument (C5) -/

theorem dot_nil_left (w : List ℚ) : dot [] w = 0 := rfl

theorem dot_nil_right (x : List ℚ) : dot x [] = 0 := by cases x <;> rfl

theorem dot_cons (a b : ℚ) (as bs : List ℚ) :
    dot (a :: as) (b :: bs) = a * b + dot as bs := by
  simp [dot]

theorem dot_comm (x w : List ℚ) : dot x w = dot w x := by
  induction x generalizing w with
  | nil => rw [dot_nil_left, dot_nil_right]
  | cons a as ih =>
    cases w with
    | nil => rw [dot_nil_left, dot_nil_right]
    | cons b bs => rw [dot_cons, dot_cons, mul_comm, ih]

theorem dot_self_nonneg (v : List ℚ) : 0 ≤ dot v v := by
  induction v with
  | nil => exact le_refl 0
  | cons a as ih => rw [dot_cons]; exact add_nonneg (mul_self_nonneg a) ih

theorem dot_replicate_zero_left (u : List ℚ) : ∀ m : ℕ, dot (List.replicate m 0) u = 0 := by
  induction u with
  | nil => intro m; exact dot_nil_right _
  | cons b bs ih =>
    intro m
    cases m with
    | zero => rfl
    | succ m => rw [List.replicate_succ, dot_cons, ih, zero_mul, zero_add]

theorem dot_one_cons (x : List ℚ) (b : ℚ) (w : List ℚ) :
    dot (1 :: x) (b :: w) = b + dot x w := by
  rw [dot_cons, one_mul]

theorem addScaled_cons (a : ℚ) (v : List ℚ) (c b : ℚ) (z : List ℚ) :
    addScaled (a :: v) c (b :: z) = (a + c * b) :: addScaled v c z := rfl

theorem addScaled_length {v z : List ℚ} (c : ℚ) (h : v.length = z.length) :
    (addScaled v c z).length = v.length := by
  simp [addScaled, h]

theorem dot_addScaled (u : List ℚ) {v z : List ℚ} (c : ℚ) (h : v.length = z.length) :
    dot u (addScaled v c z) = dot u v + c * dot u z := by
  induction u generalizing v z with
  | nil => simp [dot_nil_left]
  | cons a as ih =>
    cases v with
    | nil =>
      have hz : z = [] := List.length_eq_zero.mp h.symm
      subst hz
      simp [addScaled, dot_nil_right]
    | cons b bs =>
      cases z with
      | nil => simp at h
      | cons d ds =>
        rw [addScaled_cons, dot_cons, dot_cons, dot_cons, ih (by simpa using h)]
        ring

theorem normSq_addScaled {v z : List ℚ} (c : ℚ) (h : v.length = z.length) :
    normSq (addScaled v c z) = normSq v + 2 * c * dot z v + c ^ 2 * normSq z := by
  unfold normSq
  rw [dot_addScaled _ c h, dot_comm (addScaled v c z) v, dot_addScaled _ c h,
    dot_comm (addScaled v c z) z, dot_addScaled _ c h, dot_comm v z]
  ring

theorem dot_eq_sum_getD : ∀ (a b : List ℚ), a.length = b.length →
    dot a b = ∑ i ∈ Finset.range a.length, a.getD i 0 * b.getD i 0 := by
  intro a
  induction a with
  | nil => intro b h; simp [dot_nil_left]
  | cons x as ih =>
    intro b h
    cases b with
    | nil => simp at h
    | cons y bs =>
      rw [dot_cons, List.length_cons, Finset.sum_range_succ']
      simp only [List.getD_cons_succ, List.getD_cons_zero]
      rw [← ih bs (by simpa using h)]
      ring

theorem dot_sq_le_normSq_mul {a b : List ℚ} (h : a.length = b.length) :
    dot a b ^ 2 ≤ normSq a * normSq b := by
  rw [normSq, normSq, dot_eq_sum_getD a b h, dot_eq_sum_getD a a rfl,
    dot_eq_sum_getD b b rfl, h]
  have H := Finset.sum_mul_sq_le_sq_mul_sq (Finset.range b.length)
    (fun i => a.getD i 0) (fun i => b.getD i 0)
  simpa [pow_two] using H

theorem exists_pos_lower_bound (l : List ℚ) (h : ∀ a ∈ l, 0 < a) :
    ∃ m : ℚ, 0 < m ∧ ∀ a ∈ l, m ≤ a := by
  induction l with
  | nil => exact ⟨1, one_pos, by simp⟩
  | cons a as ih =>
    obtain ⟨m, hm, hle⟩ := ih (fun b hb => h b (List.mem_cons_of_mem a hb))
    refine ⟨min a m, lt_min (h a (List.mem_cons_self a as)) hm, ?_⟩
    intro b hb
    rcases List.mem_cons.mp hb with hb | hb
    · rw [hb]; exact min_le_left a m
    · exact le_trans (min_le_right a m) (hle b hb)

theorem exists_nonneg_upper_bound (l : List ℚ) :
    ∃ M : ℚ, 0 ≤ M ∧ ∀ a ∈ l, a ≤ M := by
  induction l with
  | nil => exact ⟨0, le_refl 0, by simp⟩
  | cons a as ih =>
    obtain ⟨M, hM, hle⟩ := ih
    refine ⟨max a M, le_trans hM (le_max_right a M), ?_⟩
    intro b hb
    rcases List.mem_cons.mp hb with hb | hb
    · rw [hb]; exact le_max_left a M
    · exact le_trans (hle b hb) (le_max_right a M)

/-- The bias-augmented view of one training update: the vector
`bias :: weights` moves by `learning_rate * error` times `1 :: input`. -/
theorem Perceptron.trainStep_aug (p : Perceptron) (x : List ℚ) (y : ℚ) :
    (p.trainStep x y).bias :: (p.trainStep x y).weights =
      addScaled (p.bias :: p.weights) (p.learning_rate * loss_function y (p.predict x))
        (1 :: x) := by
  simp [Perceptron.trainStep, addScaled, mul_one]

/-- Any hyperplane that classifies every example of a finite dataset exactly
as `predict` would label it admits a positive margin in the bias-augmented
formulation: some `u` of length `n + 1` and `γ > 0` satisfy
`(2y - 1) * dot (1 :: x) u ≥ γ` on every example. -/
theorem separable_margin (n : ℕ) (ds : List (List ℚ × ℚ))
    (hlab : ∀ ex ∈ ds, ex.2 = 0 ∨ ex.2 = 1)
    (w : List ℚ) (b : ℚ) (hw : w.length = n)
    (hcls : ∀ ex ∈ ds, predictWith w b ex.1 = ex.2) :
    ∃ (u : List ℚ) (γ : ℚ), 0 < γ ∧ u.length = n + 1 ∧
      ∀ ex ∈ ds, γ ≤ (2 * ex.2 - 1) * dot (1 :: ex.1) u := by
  have hneg0 : ∀ ex ∈ ds, ex.2 = 0 → dot ex.1 w + b < 0 := by
    intro ex hex hy
    by_contra hge
    push_neg at hge
    have := hcls ex hex
    rw [predictWith, activation_function, if_pos (by exact hge), hy] at this
    norm_num at this
  have hpos1 : ∀ ex ∈ ds, ex.2 = 1 → 0 ≤ dot ex.1 w + b := by
    intro ex hex hy
    by_contra hlt
    push_neg at hlt
    have := hcls ex hex
    rw [predictWith, activation_function, if_neg (by exact not_le.mpr hlt), hy] at this
    norm_num at this
  have hentries : ∀ a ∈ ds.map (fun ex => if ex.2 = 0 then -(dot ex.1 w + b) else 1), 0 < a := by
    intro a ha
    obtain ⟨ex, hex, rfl⟩ := List.mem_map.mp ha
    by_cases hy : ex.2 = 0
    · rw [if_pos hy]
      have := hneg0 ex hex hy
      linarith
    · rw [if_neg hy]
      exact one_pos
  have H := exists_pos_lower_bound
    (ds.map (fun ex => if ex.2 = 0 then -(dot ex.1 w + b) else 1)) hentries
  obtain ⟨m, hm, hmle⟩ := H
  refine ⟨(b + m / 2) :: w, m / 2, by positivity, by simp [hw], ?_⟩
  intro ex hex
  rw [dot_one_cons]
  rcases hlab ex hex with hy | hy
  · have hbound : m ≤ -(dot ex.1 w + b) := by
      have := hmle (if ex.2 = 0 then -(dot ex.1 w + b) else 1)
        (List.mem_map_of_mem _ hex)
      rwa [if_pos hy] at this
    rw [hy]
    nlinarith
  · have := hpos1 ex hex hy
    rw [hy]
    nlinarith

/-! ### The multi-epoch example stream -/

theorem repeatedData_zero (ds : List (List ℚ × ℚ)) : repeatedData 0 ds = [] := rfl

theorem repeatedData_succ (e : ℕ) (ds : List (List ℚ × ℚ)) :
    repeatedData (e + 1) ds = ds ++ repeatedData e ds := by
  simp [repeatedData, List.replicate_succ]

theorem mem_repeatedData {e : ℕ} {ds : List (List ℚ × ℚ)} {ex : List ℚ × ℚ}
    (h : ex ∈ repeatedData e ds) : ex ∈ ds := by
  induction e with
  | zero => simp [repeatedData_zero] at h
  | succ e ih =>
    rw [repeatedData_succ] at h
    rcases List.mem_append.mp h with h | h
    · exact h
    · exact ih h

theorem Perceptron.trainEpoch_append (p : Perceptron) (l₁ l₂ : List (List ℚ × ℚ)) :
    p.trainEpoch (l₁ ++ l₂) = (p.trainEpoch l₁).trainEpoch l₂ := by
  induction l₁ generalizing p with
  | nil => rfl
  | cons ex rest ih => rw [List.cons_append, Perceptron.trainEpoch, Perceptron.trainEpoch, ih]

theorem Perceptron.epochMistakes_append (p : Perceptron) (l₁ l₂ : List (List ℚ × ℚ)) :
    p.epochMistakes (l₁ ++ l₂) = p.epochMistakes l₁ + (p.trainEpoch l₁).epochMistakes l₂ := by
  induction l₁ generalizing p with
  | nil => simp [Perceptron.epochMistakes, Perceptron.trainEpoch]
  | cons ex rest ih =>
    rw [List.cons_append, Perceptron.epochMistakes, Perceptron.epochMistakes,
      Perceptron.trainEpoch, ih, Nat.add_assoc]

theorem Perceptron.train_eq_trainEpoch_repeated (p : Perceptron) (ins : List (List ℚ))
    (outs : List ℚ) : ∀ e : ℕ, p.train ins outs e = p.trainEpoch (repeatedData e (ins.zip outs))
  | 0 => rfl
  | e + 1 => by
    rw [Perceptron.train_succ, Perceptron.train_eq_trainEpoch_repeated _ ins outs e,
      repeatedData_succ, Perceptron.trainEpoch_append]

theorem Perceptron.epochMistakes_repeated (ds : List (List ℚ × ℚ)) :
    ∀ (e : ℕ) (p : Perceptron), p.epochMistakes (repeatedData e ds) =
      ∑ j ∈ Finset.range e, ((fun q : Perceptron => q.trainEpoch ds)^[j] p).epochMistakes ds := by
  intro e
  induction e with
  | zero => intro p; simp [repeatedData_zero, Perceptron.epochMistakes]
  | succ e ih =>
    intro p
    rw [repeatedData_succ, Perceptron.epochMistakes_append, ih, Finset.sum_range_succ']
    simp only [Function.iterate_succ_apply, Function.iterate_zero_apply]
    exact Nat.add_comm _ _

theorem dot_addScaled_left {v z : List ℚ} (u : List ℚ) (c : ℚ) (h : v.length = z.length) :
    dot (addScaled v c z) u = dot v u + c * dot z u := by
  rw [dot_comm, dot_addScaled u c h, dot_comm u v, dot_comm u z]

/-- One misclassified example strictly advances the Novikoff invariants: the
alignment of the bias-augmented state with the separating direction `u` grows
by at least `η * γ`, while its squared norm grows by at most `η ^ 2 * R2`. -/
theorem perceptron_mistake_step (η γ R2 : ℚ) (hη : 0 < η) (u : List ℚ) (n : ℕ)
    (p : Perceptron) (x : List ℚ) (y : ℚ)
    (hx : x.length = n) (hlen : p.weights.length = n) (hlr : p.learning_rate = η)
    (hmargin : γ ≤ (2 * y - 1) * dot (1 :: x) u)
    (hR : normSq (1 :: x) ≤ R2)
    (hy : y = 0 ∨ y = 1)
    (herr : loss_function y (p.predict x) ≠ 0)
    (k : ℕ)
    (hA : (k : ℚ) * (η * γ) ≤ dot (p.bias :: p.weights) u)
    (hB : normSq (p.bias :: p.weights) ≤ (k : ℚ) * (η ^ 2 * R2)) :
    ((k + 1 : ℕ) : ℚ) * (η * γ) ≤
        dot ((p.trainStep x y).bias :: (p.trainStep x y).weights) u ∧
      normSq ((p.trainStep x y).bias :: (p.trainStep x y).weights) ≤
        ((k + 1 : ℕ) : ℚ) * (η ^ 2 * R2) := by
  have hpredict : p.predict x = if 0 ≤ dot x p.weights + p.bias then 1 else 0 := by
    simp only [Perceptron.predict, activation_function, ge_iff_le]
  have hkey : (loss_function y (p.predict x) = 1 ∨ loss_function y (p.predict x) = -1) ∧
      loss_function y (p.predict x) = 2 * y - 1 ∧
      loss_function y (p.predict x) * (p.bias + dot x p.weights) ≤ 0 := by
    by_cases hraw : 0 ≤ dot x p.weights + p.bias
    · have hp1 : p.predict x = 1 := by rw [hpredict, if_pos hraw]
      have hy0 : y = 0 := by
        rcases hy with h0 | h1
        · exact h0
        · exact absurd (by rw [loss_function, hp1, h1]; ring) herr
      have hEval : loss_function y (p.predict x) = -1 := by
        rw [loss_function, hp1, hy0]; norm_num
      refine ⟨Or.inr hEval, by rw [hEval, hy0]; norm_num, ?_⟩
      rw [hEval]; linarith
    · push_neg at hraw
      have hp0 : p.predict x = 0 := by rw [hpredict, if_neg (not_le.mpr hraw)]
      have hy1 : y = 1 := by
        rcases hy with h0 | h1
        · exact absurd (by rw [loss_function, hp0, h0]; ring) herr
        · exact h1
      have hEval : loss_function y (p.predict x) = 1 := by
        rw [loss_function, hp0, hy1]; norm_num
      refine ⟨Or.inl hEval, by rw [hEval, hy1]; norm_num, ?_⟩
      rw [hEval]; linarith
  have haug := p.trainStep_aug x y
  rw [hlr] at haug
  have hlen2 : (p.bias :: p.weights).length = ((1 : ℚ) :: x).length := by
    simp [hlen, hx]
  have hAstep : dot ((p.trainStep x y).bias :: (p.trainStep x y).weights) u =
      dot (p.bias :: p.weights) u +
        (η * loss_function y (p.predict x)) * dot (1 :: x) u := by
    rw [haug, dot_addScaled_left u _ hlen2]
  have hmarg2 : η * γ ≤ η * loss_function y (p.predict x) * dot (1 :: x) u := by
    have h1 : γ ≤ loss_function y (p.predict x) * dot (1 :: x) u := by
      rw [hkey.2.1]; exact hmargin
    calc η * γ ≤ η * (loss_function y (p.predict x) * dot (1 :: x) u) :=
          mul_le_mul_of_nonneg_left h1 (le_of_lt hη)
      _ = η * loss_function y (p.predict x) * dot (1 :: x) u := by ring
  constructor
  · rw [hAstep]
    push_cast
    nlinarith [hA, hmarg2]
  · have hBstep : normSq ((p.trainStep x y).bias :: (p.trainStep x y).weights) =
        normSq (p.bias :: p.weights) +
          2 * (η * loss_function y (p.predict x)) * dot (1 :: x) (p.bias :: p.weights) +
          (η * loss_function y (p.predict x)) ^ 2 * normSq (1 :: x) := by
      rw [haug, normSq_addScaled _ hlen2]
    have hsq : loss_function y (p.predict x) ^ 2 = 1 := by
      rcases hkey.1 with h | h <;> rw [h] <;> norm_num
    rw [hBstep, dot_one_cons]
    have h2 : 2 * (η * loss_function y (p.predict x)) * (p.bias + dot x p.weights) ≤ 0 := by
      nlinarith [hkey.2.2, hη]
    have h3 : (η * loss_function y (p.predict x)) ^ 2 * normSq (1 :: x) ≤ η ^ 2 * R2 := by
      have hpow : (η * loss_function y (p.predict x)) ^ 2 = η ^ 2 := by
        rw [mul_pow, hsq, mul_one]
      rw [hpow]
      exact mul_le_mul_of_nonneg_left hR (sq_nonneg η)
    push_cast
    nlinarith [hB]

/-- The Novikoff invariant carried along an arbitrary example stream: starting
from alignment at least `k * η * γ` and squared norm at most `k * η ^ 2 * R2`,
sweeping the stream ends with both invariants at `k` plus the number of
mistakes made, and preserves the weight length and learning rate. -/
theorem perceptron_mistake_invariant (η γ R2 : ℚ) (hη : 0 < η)
    (u : List ℚ) (n : ℕ) :
    ∀ l : List (List ℚ × ℚ),
      (∀ ex ∈ l, ex.1.length = n) →
      (∀ ex ∈ l, ex.2 = 0 ∨ ex.2 = 1) →
      (∀ ex ∈ l, γ ≤ (2 * ex.2 - 1) * dot (1 :: ex.1) u) →
      (∀ ex ∈ l, normSq (1 :: ex.1) ≤ R2) →
      ∀ (p : Perceptron) (k : ℕ),
        p.weights.length = n → p.learning_rate = η →
        (k : ℚ) * (η * γ) ≤ dot (p.bias :: p.weights) u →
        normSq (p.bias :: p.weights) ≤ (k : ℚ) * (η ^ 2 * R2) →
        (((k + p.epochMistakes l : ℕ) : ℚ) * (η * γ) ≤
            dot ((p.trainEpoch l).bias :: (p.trainEpoch l).weights) u ∧
          normSq ((p.trainEpoch l).bias :: (p.trainEpoch l).weights) ≤
            ((k + p.epochMistakes l : ℕ) : ℚ) * (η ^ 2 * R2) ∧
          (p.trainEpoch l).weights.length = n ∧
          (p.trainEpoch l).learning_rate = η) := by
  intro l
  induction l with
  | nil =>
    intro _ _ _ _ p k hlen hlr hA hB
    simp only [Perceptron.trainEpoch, Perceptron.epochMistakes, Nat.add_zero]
    exact ⟨hA, hB, hlen, hlr⟩
  | cons ex rest ih =>
    intro hdim hlab hmargin hR p k hlen hlr hA hB
    obtain ⟨x, y⟩ := ex
    have hx : x.length = n := hdim (x, y) (List.mem_cons_self _ _)
    have hy : y = 0 ∨ y = 1 := hlab (x, y) (List.mem_cons_self _ _)
    have hxlen : x.length = p.weights.length := by rw [hlen, hx]
    have hrdim : ∀ e ∈ rest, e.1.length = n := fun e he => hdim e (List.mem_cons_of_mem _ he)
    have hrlab : ∀ e ∈ rest, e.2 = 0 ∨ e.2 = 1 :=
      fun e he => hlab e (List.mem_cons_of_mem _ he)
    have hrmargin : ∀ e ∈ rest, γ ≤ (2 * e.2 - 1) * dot (1 :: e.1) u :=
      fun e he => hmargin e (List.mem_cons_of_mem _ he)
    have hrR : ∀ e ∈ rest, normSq (1 :: e.1) ≤ R2 :=
      fun e he => hR e (List.mem_cons_of_mem _ he)
    by_cases herr : loss_function y (p.predict x) = 0
    · have hstep : p.trainStep x y = p := Perceptron.trainStep_of_error_zero hxlen herr
      simp only [Perceptron.trainEpoch, Perceptron.epochMistakes]
      rw [if_pos herr, hstep, Nat.zero_add]
      exact ih hrdim hrlab hrmargin hrR p k hlen hlr hA hB
    · have hstep := perceptron_mistake_step η γ R2 hη u n p x y hx hlen hlr
        (hmargin (x, y) (List.mem_cons_self _ _)) (hR (x, y) (List.mem_cons_self _ _)) hy
        herr k hA hB
      have hlen' : (p.trainStep x y).weights.length = n := by
        rw [Perceptron.trainStep_weights_length hxlen, hlen]
      have hlr' : (p.trainStep x y).learning_rate = η := by
        rw [Perceptron.trainStep_learning_rate, hlr]
      have hrec := ih hrdim hrlab hrmargin hrR (p.trainStep x y) (k + 1) hlen' hlr'
        hstep.1 hstep.2
      simp only [Perceptron.trainEpoch, Perceptron.epochMistakes]
      rw [if_neg herr]
      have harith : k + (1 + (p.trainStep x y).epochMistakes rest) =
          (k + 1) + (p.trainStep x y).epochMistakes rest := by omega
      rw [harith]
      exact hrec

/-- The Novikoff invariant instantiated at the zero-initialized perceptron,
over the example stream of `e` epochs. -/
theorem init_run_invariant (n : ℕ) (η γ R2 : ℚ) (hη : 0 < η) (u : List ℚ)
    (ds : List (List ℚ × ℚ))
    (hdim : ∀ ex ∈ ds, ex.1.length = n)
    (hlab : ∀ ex ∈ ds, ex.2 = 0 ∨ ex.2 = 1)
    (hmargin : ∀ ex ∈ ds, γ ≤ (2 * ex.2 - 1) * dot (1 :: ex.1) u)
    (hR : ∀ ex ∈ ds, normSq (1 :: ex.1) ≤ R2) (e : ℕ) :
    (((Perceptron.init n η).epochMistakes (repeatedData e ds) : ℚ) * (η * γ) ≤
        dot (((Perceptron.init n η).trainEpoch (repeatedData e ds)).bias ::
          ((Perceptron.init n η).trainEpoch (repeatedData e ds)).weights) u ∧
      normSq (((Perceptron.init n η).trainEpoch (repeatedData e ds)).bias ::
          ((Perceptron.init n η).trainEpoch (repeatedData e ds)).weights) ≤
        ((Perceptron.init n η).epochMistakes (repeatedData e ds) : ℚ) * (η ^ 2 * R2) ∧
      ((Perceptron.init n η).trainEpoch (repeatedData e ds)).weights.length = n ∧
      ((Perceptron.init n η).trainEpoch (repeatedData e ds)).learning_rate = η) := by
  have haug0 : (Perceptron.init n η).bias :: (Perceptron.init n η).weights =
      List.replicate (n + 1) (0 : ℚ) := (List.replicate_succ 0 n).symm
  have hA0 : ((0 : ℕ) : ℚ) * (η * γ) ≤ dot ((Perceptron.init n η).bias ::
      (Perceptron.init n η).weights) u := by
    rw [haug0, dot_replicate_zero_left u (n + 1)]
    norm_num
  have hB0 : normSq ((Perceptron.init n η).bias :: (Perceptron.init n η).weights) ≤
      ((0 : ℕ) : ℚ) * (η ^ 2 * R2) := by
    rw [haug0, normSq, dot_replicate_zero_left _ (n + 1)]
    norm_num
  have hw0 : (Perceptron.init n η).weights.length = n := by simp [Perceptron.init]
  have H := perceptron_mistake_invariant η γ R2 hη u n (repeatedData e ds)
    (fun ex hex => hdim ex (mem_repeatedData hex))
    (fun ex hex => hlab ex (mem_repeatedData hex))
    (fun ex hex => hmargin ex (mem_repeatedData hex))
    (fun ex hex => hR ex (mem_repeatedData hex))
    (Perceptron.init n η) 0 hw0 rfl hA0 hB0
  rwa [Nat.zero_add] at H

/-- The total number of mistakes the training run from the zero state ever
makes — over any number of epochs — is bounded by the Novikoff constant
computed from a positive-margin separator. -/
theorem total_mistakes_bounded (n : ℕ) (η γ R2 : ℚ) (hη : 0 < η) (hγ : 0 < γ)
    (u : List ℚ) (hu : u.length = n + 1)
    (ds : List (List ℚ × ℚ))
    (hdim : ∀ ex ∈ ds, ex.1.length = n)
    (hlab : ∀ ex ∈ ds, ex.2 = 0 ∨ ex.2 = 1)
    (hmargin : ∀ ex ∈ ds, γ ≤ (2 * ex.2 - 1) * dot (1 :: ex.1) u)
    (hR : ∀ ex ∈ ds, normSq (1 :: ex.1) ≤ R2) (e : ℕ) :
    (Perceptron.init n η).epochMistakes (repeatedData e ds) ≤
      ⌈R2 * normSq u / γ ^ 2⌉₊ := by
  obtain ⟨hA, hB, hL, _⟩ := init_run_invariant n η γ R2 hη u ds hdim hlab hmargin hR e
  rcases Nat.eq_zero_or_pos ((Perceptron.init n η).epochMistakes (repeatedData e ds)) with
    h0 | h1
  · rw [h0]
    exact Nat.zero_le _
  · have hlen : (((Perceptron.init n η).trainEpoch (repeatedData e ds)).bias ::
        ((Perceptron.init n η).trainEpoch (repeatedData e ds)).weights).length = u.length := by
      simp [hL, hu]
    have hCS := dot_sq_le_normSq_mul hlen
    have hd : 0 ≤ ((Perceptron.init n η).epochMistakes (repeatedData e ds) : ℚ) * (η * γ) :=
      mul_nonneg (Nat.cast_nonneg _) (le_of_lt (mul_pos hη hγ))
    have hpos : (0 : ℚ) <
        ((Perceptron.init n η).epochMistakes (repeatedData e ds) : ℚ) * η ^ 2 := by
      have h1' : (0 : ℚ) < ((Perceptron.init n η).epochMistakes (repeatedData e ds) : ℚ) := by
        exact_mod_cast h1
      exact mul_pos h1' (pow_pos hη 2)
    have hfinal : ((Perceptron.init n η).epochMistakes (repeatedData e ds) : ℚ) * γ ^ 2 ≤
        R2 * normSq u := by
      apply le_of_mul_le_mul_left _ hpos
      calc ((Perceptron.init n η).epochMistakes (repeatedData e ds) : ℚ) * η ^ 2 *
            (((Perceptron.init n η).epochMistakes (repeatedData e ds) : ℚ) * γ ^ 2) =
            (((Perceptron.init n η).epochMistakes (repeatedData e ds) : ℚ) * (η * γ)) ^ 2 := by
            ring
        _ ≤ dot (((Perceptron.init n η).trainEpoch (repeatedData e ds)).bias ::
              ((Perceptron.init n η).trainEpoch (repeatedData e ds)).weights) u ^ 2 :=
            pow_le_pow_left₀ hd hA 2
        _ ≤ normSq (((Perceptron.init n η).trainEpoch (repeatedData e ds)).bias ::
              ((Perceptron.init n η).trainEpoch (repeatedData e ds)).weights) * normSq u :=
            hCS
        _ ≤ (((Perceptron.init n η).epochMistakes (repeatedData e ds) : ℚ) *
              (η ^ 2 * R2)) * normSq u :=
            mul_le_mul_of_nonneg_right hB (dot_self_nonneg u)
        _ = ((Perceptron.init n η).epochMistakes (repeatedData e ds) : ℚ) * η ^ 2 *
              (R2 * normSq u) := by ring
    have hdivide : ((Perceptron.init n η).epochMistakes (repeatedData e ds) : ℚ) ≤
        R2 * normSq u / γ ^ 2 := by
      rw [le_div_iff₀ (by positivity)]
      exact hfinal
    have := hdivide.trans (Nat.le_ceil _)
    exact_mod_cast this

/-- Claim C5: on every linearly separable dataset — some hyperplane, applied
exactly as `predict` applies its parameters, labels every example correctly —
training from the zero-initialized state at any positive learning rate reaches
an epoch count `N` after which every epoch produces zero misclassifications:
the count is zero at `N` and stays zero for all further epochs.  Moreover
`train` itself performs no convergence detection or early stopping: for every
state and epoch count it is exactly the `epochs`-fold iteration of the epoch
sweep. -/
theorem c5_separable_training_converges (n : ℕ) (η : ℚ) (hη : 0 < η)
    (ins : List (List ℚ)) (outs : List ℚ)
    (hdim : ∀ x ∈ ins, x.length = n)
    (hlab : ∀ y ∈ outs, y = 0 ∨ y = 1)
    (hsep : ∃ (w : List ℚ) (b : ℚ), w.length = n ∧
      ∀ ex ∈ ins.zip outs, predictWith w b ex.1 = ex.2) :
    (∃ N : ℕ, ∀ k : ℕ,
        ((Perceptron.init n η).train ins outs (N + k)).epochMistakes (ins.zip outs) = 0) ∧
      ∀ (q : Perceptron) (e : ℕ),
        q.train ins outs e = (fun r : Perceptron => r.trainEpoch (ins.zip outs))^[e] q := by
  have hdim' : ∀ ex ∈ ins.zip outs, ex.1.length = n :=
    fun ex hex => hdim ex.1 (List.of_mem_zip hex).1
  have hlab' : ∀ ex ∈ ins.zip outs, ex.2 = 0 ∨ ex.2 = 1 :=
    fun ex hex => hlab ex.2 (List.of_mem_zip hex).2
  obtain ⟨w, b, hw, hcls⟩ := hsep
  obtain ⟨u, γ, hγ, hu, hmargin⟩ := separable_margin n (ins.zip outs) hlab' w b hw hcls
  obtain ⟨R2, hR2, hRle⟩ :=
    exists_nonneg_upper_bound ((ins.zip outs).map (fun ex => normSq (1 :: ex.1)))
  have hR : ∀ ex ∈ ins.zip outs, normSq (1 :: ex.1) ≤ R2 :=
    fun ex hex => hRle _ (List.mem_map_of_mem _ hex)
  have hbound : ∀ e : ℕ,
      (Perceptron.init n η).epochMistakes (repeatedData e (ins.zip outs)) ≤
        ⌈R2 * normSq u / γ ^ 2⌉₊ :=
    total_mistakes_bounded n η γ R2 hη hγ u hu (ins.zip outs) hdim' hlab' hmargin hR
  have hexists : ∃ j : ℕ,
      ((fun r : Perceptron => r.trainEpoch (ins.zip outs))^[j]
        (Perceptron.init n η)).epochMistakes (ins.zip outs) = 0 := by
    by_contra hno
    push_neg at hno
    have hone : ∀ j ∈ Finset.range (⌈R2 * normSq u / γ ^ 2⌉₊ + 1),
        1 ≤ ((fun r : Perceptron => r.trainEpoch (ins.zip outs))^[j]
          (Perceptron.init n η)).epochMistakes (ins.zip outs) :=
      fun j _ => Nat.one_le_iff_ne_zero.mpr (hno j)
    have hsum := Finset.card_nsmul_le_sum (Finset.range (⌈R2 * normSq u / γ ^ 2⌉₊ + 1)) _ 1 hone
    rw [Finset.card_range, smul_eq_mul, mul_one] at hsum
    have htotal := hbound (⌈R2 * normSq u / γ ^ 2⌉₊ + 1)
    rw [Perceptron.epochMistakes_repeated (ins.zip outs) (⌈R2 * normSq u / γ ^ 2⌉₊ + 1)
      (Perceptron.init n η)] at htotal
    omega
  obtain ⟨N, hN0⟩ := hexists
  have hsN : (Perceptron.init n η).train ins outs N =
      (fun r : Perceptron => r.trainEpoch (ins.zip outs))^[N] (Perceptron.init n η) :=
    Perceptron.train_eq_iterate _ ins outs N
  have hs0 : ((Perceptron.init n η).train ins outs N).epochMistakes (ins.zip outs) = 0 := by
    rw [hsN]
    exact hN0
  have hsdim : ∀ ex ∈ ins.zip outs,
      ex.1.length = ((Perceptron.init n η).train ins outs N).weights.length := by
    have hinv := init_run_invariant n η γ R2 hη u (ins.zip outs) hdim' hlab' hmargin hR N
    have hrepr : (Perceptron.init n η).train ins outs N =
        (Perceptron.init n η).trainEpoch (repeatedData N (ins.zip outs)) :=
      Perceptron.train_eq_trainEpoch_repeated _ ins outs N
    intro ex hex
    rw [hrepr, hinv.2.2.1]
    exact hdim' ex hex
  have hfix : ((Perceptron.init n η).train ins outs N).trainEpoch (ins.zip outs) =
      (Perceptron.init n η).train ins outs N :=
    Perceptron.epochMistakes_zero_fix hsdim hs0
  refine ⟨⟨N, fun k => ?_⟩, fun q e => Perceptron.train_eq_iterate q ins outs e⟩
  have hall := train_eventually_fixed rfl hfix (N + k) (Nat.le_add_right N k)
  rw [hall]
  exact hs0

/-- Witness for C5: the 1-input dataset `([1], 1)` is separated by the
hyperplane with weight 1 and bias 0. -/
theorem c5_separable_training_converges_witness :
    ((∃ N : ℕ, ∀ k : ℕ,
        ((Perceptron.init 1 (1/10)).train [[1]] [1] (N + k)).epochMistakes
          (([[1]] : List (List ℚ)).zip [1]) = 0) ∧
      ∀ (q : Perceptron) (e : ℕ),
        q.train [[1]] [1] e =
          (fun r : Perceptron => r.trainEpoch (([[1]] : List (List ℚ)).zip [1]))^[e] q) :=
  c5_separable_training_converges 1 (1/10) (by norm_num) [[1]] [1]
    (by intro x hx; simp only [List.mem_singleton] at hx; rw [hx]; rfl)
    (by intro y hy; simp only [List.mem_singleton] at hy; right; exact hy)
    ⟨[1], 0, rfl, by
      intro ex hex
      simp only [List.zip_cons_cons, List.zip_nil_right, List.mem_singleton] at hex
      rw [hex]
      norm_num [predictWith, dot, activation_function]⟩
